import Mathlib

/-!
Verification of `convert.py` (chrome-passwords-to-firefox): a one-shot batch
tool that reads Chrome "Login Data" rows and renders two XML documents
(saved credentials and blocked sites) for the Firefox Password Exporter addon.

Shallow embedding: Python strings become `String`, the password BLOB becomes
`List UInt8`, the row dict becomes the structure `RawRecord`, the fatal
exceptions become the `PipeError` sum, and the main loop plus the final
dedup/sort/write phase become pure functions (`processRecord`, `processAll`,
`runConvert`).  Python's `list(set(...))`, whose iteration order is
implementation-defined, is additionally modelled by the relation `pySetList`
so that determinism of the whole pipeline is a real statement and not a
triviality about a function.
-/

/-- Errors that abort the run: `strip_path`'s `Exception('Unexpected url: …')`
and the `UnicodeDecodeError` from `bytes.decode('utf-8')`. -/
inductive PipeError where
  | unexpectedScheme (url : String)
  | decodeError
  deriving DecidableEq

/-- Python `s.split(sep)` for a one-character separator, on the character
list: splits at every occurrence of `sep`, keeping empty pieces, and returns
`[[]]` on the empty string. -/
def splitChar (sep : Char) : List Char → List (List Char)
  | [] => [[]]
  | c :: cs =>
    if c = sep then [] :: splitChar sep cs
    else
      match splitChar sep cs with
      | [] => [[c]]
      | h :: t => (c :: h) :: t

/-- Python `sep.join(parts)` for a one-character separator, on character
lists. -/
def joinSep (sep : Char) : List (List Char) → List Char
  | [] => []
  | [x] => x
  | x :: y :: t => x ++ sep :: joinSep sep (y :: t)

/-- Python `s.startswith(pre)`. -/
def pyStartswith (s pre : String) : Bool :=
  pre.data.isPrefixOf s.data

/-- `strip_path` from `convert.py`:
empty url returned unchanged; a url starting with `http` is reduced to
`'/'.join(url.split('/')[0:3])`; anything else raises. -/
def strip_path (url : String) : Except PipeError String :=
  if url = "" then .ok url
  else if pyStartswith url "http" then
    .ok (String.mk (joinSep '/' ((splitChar '/' url.data).take 3)))
  else .error (.unexpectedScheme url)

/-- Is `b` a UTF-8 continuation byte (`0x80–0xBF`)? -/
def isContByte (b : UInt8) : Bool :=
  0x80 ≤ b.toNat && b.toNat < 0xC0

/-- UTF-8 decoding of a byte list, as performed by Python
`bytes.decode('utf-8')`: rejects stray continuation bytes, overlong
encodings, surrogate code points and code points above `U+10FFFF`. -/
def utf8Decode : List UInt8 → Option (List Char)
  | [] => some []
  | b :: bs =>
    if b.toNat < 0x80 then
      (utf8Decode bs).map (fun cs => Char.ofNat b.toNat :: cs)
    else if b.toNat < 0xC2 then none
    else if b.toNat < 0xE0 then
      match bs with
      | b2 :: bs2 =>
        if isContByte b2 then
          (utf8Decode bs2).map
            (fun cs => Char.ofNat ((b.toNat - 0xC0) * 64 + (b2.toNat - 0x80)) :: cs)
        else none
      | [] => none
    else if b.toNat < 0xF0 then
      match bs with
      | b2 :: b3 :: bs3 =>
        let cp := (b.toNat - 0xE0) * 4096 + (b2.toNat - 0x80) * 64 + (b3.toNat - 0x80)
        if isContByte b2 && isContByte b3 && decide (0x800 ≤ cp) &&
            !(decide (0xD800 ≤ cp) && decide (cp ≤ 0xDFFF)) then
          (utf8Decode bs3).map (fun cs => Char.ofNat cp :: cs)
        else none
      | _ => none
    else if b.toNat < 0xF5 then
      match bs with
      | b2 :: b3 :: b4 :: bs4 =>
        let cp := (b.toNat - 0xF0) * 262144 + (b2.toNat - 0x80) * 4096 +
          (b3.toNat - 0x80) * 64 + (b4.toNat - 0x80)
        if isContByte b2 && isContByte b3 && isContByte b4 &&
            decide (0x10000 ≤ cp) && decide (cp ≤ 0x10FFFF) then
          (utf8Decode bs4).map (fun cs => Char.ofNat cp :: cs)
        else none
      | _ => none
    else none

/-- Python `bs.decode('utf-8')` as a `String`. -/
def pyDecodeUtf8 (bs : List UInt8) : Option String :=
  (utf8Decode bs).map String.mk

/-- One row of the `logins` table, field per column of `sql_fields`.
Text affinity columns are `String`; `password_value` is the BLOB
(`List UInt8`); `blacklisted_by_user` is the flag tested by
`if row['blacklisted_by_user']`.  Columns the script never reads are kept as
uninterpreted strings. -/
structure RawRecord where
  origin_url : String
  action_url : String
  username_element : String
  username_value : String
  password_element : String
  password_value : List UInt8
  submit_element : String
  signon_realm : String
  preferred : String
  date_created : String
  blacklisted_by_user : Bool
  scheme : String
  password_type : String
  times_used : String
  form_data : String
  date_synced : String
  display_name : String
  icon_url : String
  federation_url : String
  skip_zero_click : String
  generation_upload_status : String
  possible_username_pairs : String
  deriving DecidableEq

/-- `row_tpl.format(**row)`: the form-based saved-credential entry. -/
def row_tpl (origin_url username_value password_value action_url
    username_element password_element : String) : String :=
  "<entry host=\"" ++ origin_url ++ "\" user=\"" ++ username_value ++
    "\" password=\"" ++ password_value ++ "\" formSubmitURL=\"" ++ action_url ++
    "\" userFieldName=\"" ++ username_element ++ "\" passFieldName=\"" ++
    password_element ++ "\" />\n"

/-- `row_realm_tpl.format(**row)`: the realm-based saved-credential entry. -/
def row_realm_tpl (origin_url username_value password_value signon_realm
    username_element password_element : String) : String :=
  "<entry host=\"" ++ origin_url ++ "\" user=\"" ++ username_value ++
    "\" password=\"" ++ password_value ++ "\" httpRealm=\"" ++ signon_realm ++
    "\" userFieldName=\"" ++ username_element ++ "\" passFieldName=\"" ++
    password_element ++ "\" />\n"

/-- `blackrow_tpl.format(**row)`: the blocked-site entry, host only. -/
def blackrow_tpl (origin_url : String) : String :=
  "<entry host=\"" ++ origin_url ++ "\"/>\n"

/-- Result of one iteration of the main loop for one row: skipped by the
`chrome:` filter, appended to `blacklist`, or appended to `passlist`. -/
inductive RowResult where
  | skipped
  | blocked (rendered : String)
  | saved (rendered : String)
  deriving DecidableEq

/-- The body of the main loop of `convert.py` for one row: the `chrome:`
filter, stripping of both urls, password decoding, then classification into
the blocked / realm-based / form-based renderings. -/
def processRecord (r : RawRecord) : Except PipeError RowResult :=
  if pyStartswith r.origin_url "chrome:" then .ok .skipped
  else do
    let origin ← strip_path r.origin_url
    let action ← strip_path r.action_url
    let password ←
      match pyDecodeUtf8 r.password_value with
      | some s => Except.ok s
      | none => Except.error PipeError.decodeError
    if r.blacklisted_by_user then
      pure (.blocked (blackrow_tpl origin))
    else if action = "" then
      pure (.saved (row_realm_tpl origin r.username_value password
        r.signon_realm r.username_element r.password_element))
    else
      pure (.saved (row_tpl origin r.username_value password action
        r.username_element r.password_element))

/-- The whole main loop: accumulates `passlist` and `blacklist` in row
order, aborting on the first error exactly as the Python loop raises. -/
def processAll : List RawRecord → Except PipeError (List String × List String)
  | [] => .ok ([], [])
  | r :: rs => do
    let res ← processRecord r
    let (pass, black) ← processAll rs
    match res with
    | .skipped => pure (pass, black)
    | .saved s => pure (s :: pass, black)
    | .blocked s => pure (pass, s :: black)

/-- Python `sorted` on strings: ascending lexicographic order. -/
def pySorted (l : List String) : List String :=
  List.insertionSort (· ≤ ·) l

/-- `out` is a possible value of Python `list(set(l))`: the distinct
elements of `l` in some implementation-defined order. -/
def pySetList (l out : List String) : Prop :=
  out.Nodup ∧ ∀ s, s ∈ out ↔ s ∈ l

/-- `sorted(list(set(l)))`, using one particular realisation of the set
order; any realisation sorts to the same list. -/
def sortedDedup (l : List String) : List String :=
  pySorted l.dedup

/-- `passlist_tpl.format(''.join(entries))`. -/
def passlist_tpl (entries : List String) : String :=
  "<xml><entries ext=\"Password Exporter\" extxmlversion=\"1.1\"" ++
    " type=\"saved\" encrypt=\"false\">\n" ++ String.join entries ++
    "</entries></xml>\n"

/-- `blacklist_tpl.format(''.join(entries))`. -/
def blacklist_tpl (entries : List String) : String :=
  "<xml><entries ext=\"Password Exporter\" extxmlversion=\"1.0.2\"" ++
    " type=\"rejected\">\n" ++ String.join entries ++
    "</entries></xml>\n"

/-- The whole conversion as a function: loop, dedup, sort, render both
documents.  On error nothing is produced (no output file is written). -/
def runConvert (recs : List RawRecord) : Except PipeError (String × String) :=
  (processAll recs).map
    (fun pb => (passlist_tpl (sortedDedup pb.1), blacklist_tpl (sortedDedup pb.2)))

/-- The whole conversion as a relation, leaving the iteration order of
Python's `set` unspecified: `out` is a pair of documents the script can
write for input `recs`. -/
def runConvertRel (recs : List RawRecord) (out : String × String) : Prop :=
  ∃ pl bl p b, processAll recs = .ok (pl, bl) ∧ pySetList pl p ∧ pySetList bl b ∧
    out = (passlist_tpl (pySorted p), blacklist_tpl (pySorted b))

/-- Modelled from the spec: "reduce it to scheme+host+port (drop path,
query, fragment)".  The scheme is everything before `://`; the authority
(host+port) extends until the first `/`, `?` or `#` after it. -/
def spec_scheme_host_port (url : String) : String :=
  if url = "" then ""
  else
    let sch := url.data.takeWhile (fun c => c ≠ ':')
    let rest := url.data.drop (sch.length + 3)
    String.mk (sch ++ ':' :: '/' :: '/' ::
      rest.takeWhile (fun c => c ≠ '/' && c ≠ '?' && c ≠ '#'))

/-! ### Properties of the `split`/`join` model -/

theorem splitChar_ne_nil (sep : Char) (l : List Char) : splitChar sep l ≠ [] := by
  induction l with
  | nil => simp [splitChar]
  | cons c cs ih =>
    simp only [splitChar]
    split
    · simp
    · cases h : splitChar sep cs with
      | nil => simp
      | cons hd tl => simp

theorem splitChar_cons_of_ne {sep c : Char} (hc : c ≠ sep) (l : List Char)
    {h : List Char} {t : List (List Char)} (hl : splitChar sep l = h :: t) :
    splitChar sep (c :: l) = (c :: h) :: t := by
  simp [splitChar, hc, hl]

theorem splitChar_append {sep : Char} (a : List Char) (ha : sep ∉ a) {l : List Char}
    {h : List Char} {t : List (List Char)} (hl : splitChar sep l = h :: t) :
    splitChar sep (a ++ l) = (a ++ h) :: t := by
  induction a with
  | nil => simpa using hl
  | cons c a ih =>
    have hc : c ≠ sep := by rintro rfl; exact ha (List.mem_cons_self _ _)
    have ha' : sep ∉ a := fun hm => ha (List.mem_cons_of_mem _ hm)
    simpa using splitChar_cons_of_ne hc (a ++ l) (ih ha')

theorem splitChar_head (sep : Char) (l : List Char) :
    ∃ t, splitChar sep l = (l.takeWhile (fun c => c ≠ sep)) :: t := by
  induction l with
  | nil => exact ⟨[], rfl⟩
  | cons c cs ih =>
    by_cases hc : c = sep
    · subst hc
      exact ⟨splitChar c cs, by simp [splitChar]⟩
    · obtain ⟨t, ht⟩ := ih
      exact ⟨t, by simp [splitChar_cons_of_ne hc cs ht, hc]⟩

theorem splitChar_no_sep {sep : Char} {l p : List Char}
    (hp : p ∈ splitChar sep l) : sep ∉ p := by
  induction l generalizing p with
  | nil =>
    simp [splitChar] at hp
    subst hp; simp
  | cons c cs ih =>
    by_cases hc : c = sep
    · subst hc
      simp [splitChar] at hp
      rcases hp with rfl | hp
      · simp
      · exact ih hp
    · obtain ⟨h, t, ht⟩ : ∃ h t, splitChar sep cs = h :: t := by
        cases hsc : splitChar sep cs with
        | nil => exact absurd hsc (splitChar_ne_nil sep cs)
        | cons h t => exact ⟨h, t, rfl⟩
      rw [splitChar_cons_of_ne hc cs ht] at hp
      rcases List.mem_cons.mp hp with rfl | hp
      · intro hm
        rcases List.mem_cons.mp hm with rfl | hm
        · exact hc rfl
        · exact ih (ht ▸ List.mem_cons_self h t) hm
      · exact ih (ht ▸ List.mem_cons_of_mem h hp)

theorem splitChar_single {sep : Char} {x : List Char} (hx : sep ∉ x) :
    splitChar sep x = [x] := by
  induction x with
  | nil => rfl
  | cons c x ih =>
    have hc : c ≠ sep := by rintro rfl; exact hx (List.mem_cons_self _ _)
    have hx' : sep ∉ x := fun hm => hx (List.mem_cons_of_mem _ hm)
    exact splitChar_cons_of_ne hc x (ih hx')

theorem splitChar_joinSep {sep : Char} : ∀ (parts : List (List Char)), parts ≠ [] →
    (∀ p ∈ parts, sep ∉ p) → splitChar sep (joinSep sep parts) = parts
  | [], h, _ => absurd rfl h
  | [x], _, hp => by
    simpa [joinSep] using splitChar_single (hp x (List.mem_cons_self _ _))
  | x :: y :: t, _, hp => by
    have hx : sep ∉ x := hp x (List.mem_cons_self _ _)
    have ih := splitChar_joinSep (y :: t) (by simp)
      (fun p hm => hp p (List.mem_cons_of_mem _ hm))
    have h1 : splitChar sep (sep :: joinSep sep (y :: t)) = [] :: (y :: t) := by
      simp [splitChar, ih]
    simpa [joinSep] using splitChar_append x hx h1

theorem joinSep_cons_isPre (sep : Char) (h : List Char) (t : List (List Char)) :
    h <+: joinSep sep (h :: t) := by
  cases t with
  | nil => simp [joinSep]
  | cons y t =>
    show h <+: h ++ sep :: joinSep sep (y :: t)
    exact List.prefix_append h (sep :: joinSep sep (y :: t))

theorem takeWhile_isPre {sep : Char} : ∀ {p l : List Char}, p <+: l → sep ∉ p →
    p <+: l.takeWhile (fun c => c ≠ sep)
  | [], _, _, _ => List.nil_prefix
  | c :: p, l, hp, hs => by
    obtain ⟨t, rfl⟩ := hp
    have hc : c ≠ sep := by rintro rfl; exact hs (List.mem_cons_self _ _)
    have hs' : sep ∉ p := fun hm => hs (List.mem_cons_of_mem _ hm)
    have ih := takeWhile_isPre (List.prefix_append p t) hs'
    obtain ⟨s, hls⟩ := ih
    exact ⟨s, by simp [List.takeWhile_cons, hc, hls]⟩

/-! ### Unfolding lemmas for `strip_path` -/

theorem strip_path_empty : strip_path "" = .ok "" := rfl

theorem strip_path_http {url : String} (hne : url ≠ "")
    (hh : pyStartswith url "http" = true) :
    strip_path url = .ok (String.mk (joinSep '/' ((splitChar '/' url.data).take 3))) := by
  simp [strip_path, hne, hh]

theorem strip_path_bad {url : String} (hne : url ≠ "")
    (hh : pyStartswith url "http" = false) :
    strip_path url = .error (.unexpectedScheme url) := by
  simp [strip_path, hne, hh]

theorem strip_path_error {url : String} {e : PipeError}
    (h : strip_path url = .error e) : e = .unexpectedScheme url := by
  by_cases hne : url = ""
  · subst hne; rw [strip_path_empty] at h; cases h
  · by_cases hh : pyStartswith url "http" = true
    · rw [strip_path_http hne hh] at h; cases h
    · rw [strip_path_bad hne (by simpa using hh)] at h
      injection h with h
      exact h.symm

theorem pyStartswith_iff {s pre : String} :
    pyStartswith s pre = true ↔ pre.data <+: s.data := by
  simp [pyStartswith, List.isPrefixOf_iff_prefix]

/-- C9: URL stripping is idempotent: whenever `strip_path` accepts `u` and
returns `v` (this covers exactly the empty url and urls starting with
`http`), applying `strip_path` to `v` returns `v` unchanged. -/
theorem stripPathIdempotent (u v : String) (h : strip_path u = .ok v) :
    strip_path v = .ok v := by
  by_cases hne : u = ""
  · subst hne
    rw [strip_path_empty] at h
    injection h with h
    subst h
    rfl
  · by_cases hh : pyStartswith u "http" = true
    · rw [strip_path_http hne hh] at h
      injection h with h
      subst h
      by_cases hvne : String.mk (joinSep '/' ((splitChar '/' u.data).take 3)) = ""
      · rw [hvne]; rfl
      · -- the head component of the split is the part of `u` before the
        -- first slash, and it still starts with `http`
        obtain ⟨t, ht⟩ := splitChar_head '/' u.data
        have hcons : (splitChar '/' u.data).take 3 =
            (u.data.takeWhile (fun c => c ≠ '/')) :: t.take 2 := by
          rw [ht]; rfl
        have hpre : "http".data <+: u.data := pyStartswith_iff.mp hh
        have hsep : ('/' : Char) ∉ "http".data := by decide
        have htw : "http".data <+: u.data.takeWhile (fun c => c ≠ '/') :=
          takeWhile_isPre hpre hsep
        have hvpre : "http".data <+:
            joinSep '/' ((splitChar '/' u.data).take 3) := by
          rw [hcons]
          exact htw.trans (joinSep_cons_isPre '/' _ _)
        have hhv : pyStartswith
            (String.mk (joinSep '/' ((splitChar '/' u.data).take 3))) "http" = true :=
          pyStartswith_iff.mpr hvpre
        rw [strip_path_http hvne hhv]
        have hnosep : ∀ p ∈ (splitChar '/' u.data).take 3, ('/' : Char) ∉ p :=
          fun p hm => splitChar_no_sep (List.take_subset 3 _ hm)
        have hround : splitChar '/'
            (String.mk (joinSep '/' ((splitChar '/' u.data).take 3))).data =
            (splitChar '/' u.data).take 3 := by
          show splitChar '/' (joinSep '/' ((splitChar '/' u.data).take 3)) = _
          exact splitChar_joinSep _ (by rw [hcons]; exact List.cons_ne_nil _ _) hnosep
        rw [hround]
        rw [List.take_take]
        rfl
    · rw [strip_path_bad hne (by simpa using hh)] at h
      cases h

/-- C9 witness: stripping the already-stripped `https://example.com` is the
identity. -/
theorem stripPathIdempotentApplied :
    strip_path "https://example.com" = .ok "https://example.com" :=
  stripPathIdempotent "https://example.com/login?x=1" "https://example.com" rfl

/-- C4 (amended): an empty url is kept empty, and for a non-empty
`http`-prefixed url whose authority is terminated by a slash or by the end
of the string, `strip_path` returns exactly scheme+host+port (everything
from the path slash on is dropped).  A query or fragment attached directly
to the authority, with no path slash in between, is not dropped — see
`stripPathKeepsBareQuery`. -/
theorem stripPathSchemeHostPort :
    strip_path "" = .ok "" ∧
    ∀ (url : String) (sch auth rest : List Char),
      url.data = sch ++ ':' :: '/' :: '/' :: (auth ++ rest) →
      ('/' : Char) ∉ sch → ('/' : Char) ∉ auth →
      pyStartswith url "http" = true →
      (rest = [] ∨ ∃ t, rest = '/' :: t) →
      strip_path url = .ok (String.mk (sch ++ ':' :: '/' :: '/' :: auth)) := by
  refine ⟨rfl, fun url sch auth rest hdata hsch hauth hh hrest => ?_⟩
  have hne : url ≠ "" := by
    intro h
    subst h
    have : ([] : List Char) = sch ++ ':' :: '/' :: '/' :: (auth ++ rest) := hdata
    apply_fun List.length at this
    simp at this
    omega
  rw [strip_path_http hne hh]
  obtain ⟨T, hT⟩ : ∃ T, splitChar '/' (auth ++ rest) = auth :: T := by
    rcases hrest with rfl | ⟨t, rfl⟩
    · exact ⟨[], by simpa using splitChar_single hauth⟩
    · have h0 : splitChar '/' ('/' :: t) = [] :: splitChar '/' t := by
        simp [splitChar]
      exact ⟨splitChar '/' t, by simpa using splitChar_append auth hauth h0⟩
  have h2 : splitChar '/' ('/' :: '/' :: (auth ++ rest)) = [] :: [] :: auth :: T := by
    simp [splitChar, hT]
  have hcolon : ('/' : Char) ∉ sch ++ [':'] := by
    intro hm
    rcases List.mem_append.mp hm with hm | hm
    · exact hsch hm
    · simp at hm
  have h3 : splitChar '/' url.data = (sch ++ [':']) :: [] :: auth :: T := by
    rw [hdata]
    have := splitChar_append (sch ++ [':']) hcolon h2
    simpa using this
  rw [h3]
  show Except.ok (String.mk (joinSep '/' [sch ++ [':'], [], auth])) = _
  have : joinSep '/' [sch ++ [':'], [], auth] = sch ++ ':' :: '/' :: '/' :: auth := by
    simp [joinSep]
  rw [this]

/-- C4 witness: `https://example.com/login?x=1` strips to
`https://example.com`, i.e. the spec's worked example. -/
theorem stripPathSchemeHostPortApplied :
    strip_path "https://example.com/login?x=1" =
      .ok (String.mk ("https".data ++ ':' :: '/' :: '/' :: "example.com".data)) ∧
    String.mk ("https".data ++ ':' :: '/' :: '/' :: "example.com".data) =
      "https://example.com" :=
  ⟨stripPathSchemeHostPort.2 "https://example.com/login?x=1" "https".data
      "example.com".data "/login?x=1".data (by decide) (by decide) (by decide)
      (by decide) (Or.inr ⟨"login?x=1".data, by decide⟩),
    by decide⟩

/-- C4 counterexample: for `http://example.com?a=1` — a well-formed
`http` url whose query follows the authority directly, with no path —
`strip_path` keeps the query instead of dropping it, so its result is not
scheme+host+port (`spec_scheme_host_port`). -/
theorem stripPathKeepsBareQuery :
    strip_path "http://example.com?a=1" = .ok "http://example.com?a=1" ∧
    spec_scheme_host_port "http://example.com?a=1" = "http://example.com" ∧
    ("http://example.com?a=1" : String) ≠ "http://example.com" :=
  ⟨rfl, by decide, by decide⟩

/-! ### Sample records used by witnesses -/

/-- A saved credential with a form action url (the spec's worked example:
password bytes are `b"p@ss"`). -/
def sampleForm : RawRecord :=
  { origin_url := "https://example.com/login?x=1"
    action_url := "https://example.com/submit"
    username_element := "u", username_value := "alice"
    password_element := "p", password_value := [0x70, 0x40, 0x73, 0x73]
    submit_element := "", signon_realm := "https://example.com/"
    preferred := "", date_created := "", blacklisted_by_user := false
    scheme := "", password_type := "", times_used := "", form_data := ""
    date_synced := "", display_name := "", icon_url := "", federation_url := ""
    skip_zero_click := "", generation_upload_status := ""
    possible_username_pairs := "" }

/-- A saved credential without an action url (realm-based export). -/
def sampleRealm : RawRecord :=
  { sampleForm with
    origin_url := "https://realm.example/a"
    action_url := ""
    username_value := "bob"
    password_value := [0x70, 0x77]
    signon_realm := "https://realm.example/" }

/-- A record the user blocked. -/
def sampleBlocked : RawRecord :=
  { sampleForm with
    origin_url := "https://blocked.example/x"
    blacklisted_by_user := true }

/-- The rendered entry of `sampleForm`. -/
def sampleFormEntry : String :=
  row_tpl "https://example.com" "alice" "p@ss" "https://example.com" "u" "p"

/-- The rendered entry of `sampleRealm`. -/
def sampleRealmEntry : String :=
  row_realm_tpl "https://realm.example" "bob" "pw" "https://realm.example/" "u" "p"

/-! ### Classification of one record -/

/-- C1: a record that passes the `chrome:` filter, whose urls strip
successfully and whose password decodes, with blocked flag false, yields
exactly one saved-credential entry: the realm-based template
(`httpRealm`, no `formSubmitURL`) when the stripped action url is empty,
and the form-based template (`formSubmitURL` = stripped action url, no
`httpRealm`) otherwise — the two templates are distinct fixed strings, so
no entry ever carries both attributes. -/
theorem savedClassification (r : RawRecord) (o a pw : String)
    (hchrome : pyStartswith r.origin_url "chrome:" = false)
    (ho : strip_path r.origin_url = .ok o)
    (ha : strip_path r.action_url = .ok a)
    (hpw : pyDecodeUtf8 r.password_value = some pw)
    (hb : r.blacklisted_by_user = false) :
    processRecord r = .ok (.saved (if a = "" then
        row_realm_tpl o r.username_value pw r.signon_realm r.username_element
          r.password_element
      else
        row_tpl o r.username_value pw a r.username_element r.password_element)) := by
  simp only [processRecord, hchrome, Bool.false_eq_true, if_false, bind, Except.bind, ho,
    ha, hpw, hb, pure, Except.pure]
  split <;> rfl

/-- C1 witness: the spec's worked example record renders as the form-based
entry, and the realm record as the realm-based entry. -/
theorem savedClassificationApplied :
    processRecord sampleForm = .ok (.saved sampleFormEntry) ∧
    processRecord sampleRealm = .ok (.saved sampleRealmEntry) := by
  constructor
  · have h := savedClassification sampleForm "https://example.com"
      "https://example.com" "p@ss" (by decide) rfl rfl (by decide) (by decide)
    simpa [sampleFormEntry] using h
  · have h := savedClassification sampleRealm "https://realm.example" "" "pw"
      (by decide) rfl rfl (by decide) (by decide)
    simpa [sampleRealmEntry, sampleRealm, sampleForm] using h

/-- C2: a record with the blocked flag set (passing the filter, stripping
and decoding) renders as the blocked-site entry, whose whole text is the
single `host` attribute built from the stripped origin — independent of
every other field — and it contributes nothing to the saved-credential
list: prepending it to any input leaves the first (passlist) component of
`processAll` unchanged. -/
theorem blockedClassification (r : RawRecord) (o a pw : String)
    (hchrome : pyStartswith r.origin_url "chrome:" = false)
    (ho : strip_path r.origin_url = .ok o)
    (ha : strip_path r.action_url = .ok a)
    (hpw : pyDecodeUtf8 r.password_value = some pw)
    (hb : r.blacklisted_by_user = true) :
    processRecord r = .ok (.blocked (blackrow_tpl o)) ∧
    ∀ rs, processAll (r :: rs) =
      (processAll rs).map (fun pb => (pb.1, blackrow_tpl o :: pb.2)) := by
  have hrec : processRecord r = .ok (.blocked (blackrow_tpl o)) := by
    simp only [processRecord, hchrome, Bool.false_eq_true, if_false, bind, Except.bind,
      ho, ha, hpw, hb, if_true, pure, Except.pure]
  refine ⟨hrec, fun rs => ?_⟩
  simp only [processAll, bind, Except.bind, hrec]
  cases processAll rs with
  | error e => rfl
  | ok pb => cases pb with | mk p b => rfl

/-- C2 witness: the blocked sample record renders as a host-only entry and
adds nothing to the passlist of a singleton run. -/
theorem blockedClassificationApplied :
    processRecord sampleBlocked =
      .ok (.blocked (blackrow_tpl "https://blocked.example")) ∧
    processAll [sampleBlocked] =
      .ok ([], [blackrow_tpl "https://blocked.example"]) := by
  have h := blockedClassification sampleBlocked "https://blocked.example"
    "https://example.com" "p@ss" (by decide) rfl rfl (by decide) (by decide)
  exact ⟨h.1, by rw [h.2 []]; rfl⟩

/-- C7: a record whose raw origin url starts with `chrome:` is discarded
before stripping and decoding — with no condition on any other field, in
particular even when its action url has a non-HTTP scheme or its password
bytes are invalid UTF-8 — and contributes zero entries to either list. -/
theorem chromeFiltered (r : RawRecord)
    (h : pyStartswith r.origin_url "chrome:" = true) :
    processRecord r = .ok .skipped ∧
    ∀ rs, processAll (r :: rs) = processAll rs := by
  have hrec : processRecord r = .ok .skipped := by
    simp [processRecord, h]
  refine ⟨hrec, fun rs => ?_⟩
  simp only [processAll, bind, Except.bind, hrec]
  cases processAll rs with
  | error e => rfl
  | ok pb => cases pb with | mk p b => rfl

/-- C7 witness: `chrome://settings` with an `ftp:` action url and an
invalid-UTF-8 password is still silently discarded. -/
theorem chromeFilteredApplied :
    processRecord { sampleForm with
        origin_url := "chrome://settings"
        action_url := "ftp://old.example.com"
        password_value := [0xFF] } = .ok .skipped ∧
    processAll [{ sampleForm with
        origin_url := "chrome://settings"
        action_url := "ftp://old.example.com"
        password_value := [0xFF] }] = .ok ([], []) := by
  have h := chromeFiltered { sampleForm with
      origin_url := "chrome://settings"
      action_url := "ftp://old.example.com"
      password_value := [0xFF] } (by decide)
  exact ⟨h.1, by rw [h.2 []]; rfl⟩

/-! ### Fatal errors -/

/-- If any record of the input makes the loop body raise, the whole run
raises (the loop aborts at its first failing row), so no output document is
produced. -/
theorem processAll_error_of_mem {r : RawRecord} {recs : List RawRecord} {e : PipeError}
    (hm : r ∈ recs) (he : processRecord r = .error e) :
    ∃ e2, processAll recs = .error e2 := by
  induction recs with
  | nil => cases hm
  | cons r2 rs ih =>
    rcases List.mem_cons.mp hm with rfl | hm
    · exact ⟨e, by simp [processAll, bind, Except.bind, he]⟩
    · cases h2 : processRecord r2 with
      | error e2 => exact ⟨e2, by simp [processAll, bind, Except.bind, h2]⟩
      | ok res =>
        obtain ⟨e2, hrs⟩ := ih hm
        exact ⟨e2, by simp [processAll, bind, Except.bind, h2, hrs]⟩

/-- C3: a record that passes the `chrome:` filter but has a non-empty
origin or action url not starting with `http` makes the loop body raise
`UnexpectedScheme` (never a skip), and any input containing such a record
makes the whole run abort with an error, so neither output document is
produced. -/
theorem unexpectedSchemeFatal (r : RawRecord)
    (hchrome : pyStartswith r.origin_url "chrome:" = false)
    (hbad : (r.origin_url ≠ "" ∧ pyStartswith r.origin_url "http" = false) ∨
      (r.action_url ≠ "" ∧ pyStartswith r.action_url "http" = false)) :
    (∃ u, processRecord r = .error (.unexpectedScheme u)) ∧
    ∀ recs, r ∈ recs → ∃ e, processAll recs = .error e := by
  have hfirst : ∃ u, processRecord r = .error (.unexpectedScheme u) := by
    rcases hbad with ⟨hne, hh⟩ | ⟨hne, hh⟩
    · exact ⟨r.origin_url, by
        simp [processRecord, hchrome, bind, Except.bind, strip_path_bad hne hh]⟩
    · cases horig : strip_path r.origin_url with
      | error e =>
        exact ⟨r.origin_url, by
          simp [processRecord, hchrome, bind, Except.bind, horig,
            strip_path_error horig]⟩
      | ok o =>
        exact ⟨r.action_url, by
          simp [processRecord, hchrome, bind, Except.bind, horig,
            strip_path_bad hne hh]⟩
  obtain ⟨u, hu⟩ := hfirst
  exact ⟨⟨u, hu⟩, fun recs hm => processAll_error_of_mem hm hu⟩

/-- C3 witness: the spec's example `ftp://old.example.com` origin aborts
the run before any output is assembled. -/
theorem unexpectedSchemeFatalApplied :
    (∃ u, processRecord { sampleForm with origin_url := "ftp://old.example.com" } =
      .error (.unexpectedScheme u)) ∧
    ∃ e, processAll [{ sampleForm with origin_url := "ftp://old.example.com" }] =
      .error e := by
  have h := unexpectedSchemeFatal { sampleForm with origin_url := "ftp://old.example.com" }
    (by decide) (Or.inl ⟨by decide, by decide⟩)
  exact ⟨h.1, h.2 _ (List.mem_cons_self _ _)⟩

/-- C8: for a record past the `chrome:` filter whose urls strip
successfully, password bytes that are not valid UTF-8 make the loop body
raise the decoding error, and any input containing such a record makes the
whole run abort (fatal, no recovery).  The successful-decode path is the
`pyDecodeUtf8 … = some pw` hypothesis of `savedClassification` and
`blockedClassification`: the decoded text is what gets rendered. -/
theorem invalidUtf8Fatal (r : RawRecord) (o a : String)
    (hchrome : pyStartswith r.origin_url "chrome:" = false)
    (ho : strip_path r.origin_url = .ok o)
    (ha : strip_path r.action_url = .ok a)
    (hdec : pyDecodeUtf8 r.password_value = none) :
    processRecord r = .error .decodeError ∧
    ∀ recs, r ∈ recs → ∃ e, processAll recs = .error e := by
  have hrec : processRecord r = .error .decodeError := by
    simp [processRecord, hchrome, bind, Except.bind, ho, ha, hdec]
  exact ⟨hrec, fun recs hm => processAll_error_of_mem hm hrec⟩

/-- C8 witness: the lone byte `0xFF` is not UTF-8 and kills the run. -/
theorem invalidUtf8FatalApplied :
    processRecord { sampleForm with password_value := [0xFF] } =
      .error .decodeError ∧
    ∃ e, processAll [{ sampleForm with password_value := [0xFF] }] = .error e := by
  have h := invalidUtf8Fatal { sampleForm with password_value := [0xFF] }
    "https://example.com" "https://example.com" (by decide) rfl rfl (by decide)
  exact ⟨h.1, h.2 _ (List.mem_cons_self _ _)⟩

/-! ### Dedup, sort, determinism -/

theorem sortedDedup_sorted (l : List String) :
    List.Sorted (· ≤ ·) (sortedDedup l) :=
  List.sorted_insertionSort _ _

theorem sortedDedup_nodup (l : List String) : (sortedDedup l).Nodup :=
  (List.perm_insertionSort _ _).nodup_iff.mpr (List.nodup_dedup l)

theorem mem_sortedDedup {s : String} {l : List String} :
    s ∈ sortedDedup l ↔ s ∈ l :=
  (List.perm_insertionSort _ _).mem_iff.trans List.mem_dedup

/-- C5: for a run that succeeds with raw lists `pl` (saved) and `bl`
(blocked), each written document contains the deduplicated entries — any
rendered string occurring in the raw list occurs exactly once — joined in
lexicographically sorted order. -/
theorem dedupSortOutput (recs : List RawRecord) (pl bl : List String)
    (h : processAll recs = .ok (pl, bl)) :
    runConvert recs =
      .ok (passlist_tpl (sortedDedup pl), blacklist_tpl (sortedDedup bl)) ∧
    List.Sorted (· ≤ ·) (sortedDedup pl) ∧
    List.Sorted (· ≤ ·) (sortedDedup bl) ∧
    (∀ s, s ∈ sortedDedup pl ↔ s ∈ pl) ∧
    (∀ s, s ∈ sortedDedup bl ↔ s ∈ bl) ∧
    (∀ s ∈ pl, (sortedDedup pl).count s = 1) ∧
    (∀ s ∈ bl, (sortedDedup bl).count s = 1) := by
  refine ⟨by simp [runConvert, h, Except.map], sortedDedup_sorted pl,
    sortedDedup_sorted bl, fun s => mem_sortedDedup, fun s => mem_sortedDedup,
    fun s hs => ?_, fun s hs => ?_⟩
  · exact List.count_eq_one_of_mem (sortedDedup_nodup pl) (mem_sortedDedup.mpr hs)
  · exact List.count_eq_one_of_mem (sortedDedup_nodup bl) (mem_sortedDedup.mpr hs)

/-- C5 witness: two raw rows rendering identically collapse to a single
entry in the written saved-credentials document. -/
theorem dedupSortOutputApplied :
    runConvert [sampleForm, sampleForm] =
      .ok (passlist_tpl (sortedDedup [sampleFormEntry, sampleFormEntry]),
        blacklist_tpl (sortedDedup [])) ∧
    sortedDedup [sampleFormEntry, sampleFormEntry] = [sampleFormEntry] := by
  have h := dedupSortOutput [sampleForm, sampleForm]
    [sampleFormEntry, sampleFormEntry] [] rfl
  exact ⟨h.1, rfl⟩

/-- C6: determinism of the pipeline.  `runConvertRel` leaves the iteration
order of Python's `set` unconstrained; still, any two outputs obtainable
for the same input are the same pair of documents, because both sides sort
the same deduplicated multiset with an antisymmetric total order. -/
theorem pipelineDeterministic (recs : List RawRecord) (o1 o2 : String × String)
    (h1 : runConvertRel recs o1) (h2 : runConvertRel recs o2) : o1 = o2 := by
  obtain ⟨pl1, bl1, p1, b1, hp1, hsp1, hsb1, ho1⟩ := h1
  obtain ⟨pl2, bl2, p2, b2, hp2, hsp2, hsb2, ho2⟩ := h2
  rw [hp1] at hp2
  injection hp2 with hpair
  injection hpair with hpl hbl
  subst hpl
  subst hbl
  have key : ∀ (l p q : List String), pySetList l p → pySetList l q →
      pySorted p = pySorted q := by
    rintro l p q ⟨hnp, hmp⟩ ⟨hnq, hmq⟩
    have hperm : p.Perm q :=
      (List.perm_ext_iff_of_nodup hnp hnq).mpr
        (fun a => (hmp a).trans (hmq a).symm)
    exact List.eq_of_perm_of_sorted
      ((List.perm_insertionSort _ p).trans
        (hperm.trans (List.perm_insertionSort _ q).symm))
      (List.sorted_insertionSort _ p) (List.sorted_insertionSort _ q)
  rw [ho1, ho2, key pl1 p1 p2 hsp1 hsp2, key bl1 b1 b2 hsb1 hsb2]

/-- C6 witness: the two documents obtained from the two possible set orders
of a two-credential input coincide. -/
theorem pipelineDeterministicApplied :
    (passlist_tpl (pySorted [sampleFormEntry, sampleRealmEntry]),
      blacklist_tpl (pySorted ([] : List String))) =
    (passlist_tpl (pySorted [sampleRealmEntry, sampleFormEntry]),
      blacklist_tpl (pySorted ([] : List String))) := by
  apply pipelineDeterministic [sampleForm, sampleRealm]
  · exact ⟨[sampleFormEntry, sampleRealmEntry], [],
      [sampleFormEntry, sampleRealmEntry], [], rfl,
      ⟨by decide, fun s => Iff.rfl⟩, ⟨List.nodup_nil, fun s => Iff.rfl⟩, rfl⟩
  · exact ⟨[sampleFormEntry, sampleRealmEntry], [],
      [sampleRealmEntry, sampleFormEntry], [], rfl,
      ⟨by decide, fun s => by
        simp only [List.mem_cons, List.not_mem_nil, or_false]
        tauto⟩,
      ⟨List.nodup_nil, fun s => Iff.rfl⟩, rfl⟩

/-- A record whose username and password both contain a double quote. -/
def sampleQuote : RawRecord :=
  { sampleForm with
    username_value := "ali\"ce"
    password_value := [0x22, 0x78] }

/-- C10: rendering performs no XML escaping: the field values are
concatenated verbatim into the fixed templates, so this record — whose
username is `ali"ce` and whose password decodes to `"x` — produces an
entry with raw double quotes inside the `user` and `password` attribute
values. -/
theorem rawSubstitution :
    processRecord sampleQuote = .ok (.saved
      ("<entry host=\"https://example.com\" user=\"ali\"ce\"" ++
        " password=\"\"x\" formSubmitURL=\"https://example.com\"" ++
        " userFieldName=\"u\" passFieldName=\"p\" />\n")) := rfl
